import Mathlib

/-!
Verification of the deduplication-and-constraint-migration subsystem of the
MacQuiz backend (`backend/migrate_postgres_constraints.py`).

The Python script is shallowly embedded: each table touched by the migration
is a list of records carrying exactly the columns the migration SQL reads or
writes, the SQL statements become pure list transformations, and the
orchestrating `run` function becomes a pure function from a configuration and
a database state to a result record.  External effects (the reported dialect
of the live connection, success of the `pg_dump` subprocess) are inputs of the
configuration; printed output is ignored.
-/

namespace MacQuiz

/-- Row of `public.users`: the migration reads `id`, `email`, `student_id`
(the latter two nullable). -/
structure UserRow where
  id : Nat
  email : Option String
  student_id : Option String
deriving DecidableEq, Repr

/-- Row of `public.quizzes` as seen by the migration: `creator_id` is the
only column it touches besides the primary key. -/
structure QuizRow where
  id : Nat
  creator_id : Option Nat
deriving DecidableEq, Repr

/-- Row of `public.subjects` (column `creator_id` rewritten by the merge). -/
structure SubjectRow where
  id : Nat
  creator_id : Option Nat
deriving DecidableEq, Repr

/-- Row of `public.question_bank` (column `creator_id` rewritten). -/
structure QuestionBankRow where
  id : Nat
  creator_id : Option Nat
deriving DecidableEq, Repr

/-- Row of `public.quiz_attempts` (column `student_id` rewritten). -/
structure QuizAttemptRow where
  id : Nat
  student_id : Option Nat
deriving DecidableEq, Repr

/-- Row of `public.quiz_assignments`: key columns `quiz_id`, `student_id`
and recency column `assigned_at` (timestamps modelled as naturals). -/
structure QuizAssignmentRow where
  id : Nat
  quiz_id : Nat
  student_id : Option Nat
  assigned_at : Option Nat
deriving DecidableEq, Repr

/-- Row of `public.user_token_blocks`: key column `user_id`, recency column
`revoked_before`. -/
structure UserTokenBlockRow where
  id : Nat
  user_id : Option Nat
  revoked_before : Option Nat
deriving DecidableEq, Repr

/-- Row of `public.answers`.  The dedupe SQL reads only `id`, `attempt_id`
and `question_id`.  Modelled from the spec: the spec speaks of an answer
timestamp (a recency column), while the ORM schema file is not part of the
sources at hand; `answered_at` carries that value as inert payload, never
consulted by any statement of the migration. -/
structure AnswerRow where
  id : Nat
  attempt_id : Nat
  question_id : Nat
  answered_at : Option Nat
deriving DecidableEq, Repr

/-- Row of `public.revoked_tokens`: key column `jti`, recency column
`revoked_at`. -/
structure RevokedTokenRow where
  id : Nat
  jti : String
  revoked_at : Option Nat
deriving DecidableEq, Repr

/-- State of the database portion the migration touches; `indexes` is the
set (as a list) of names of indexes that currently exist. -/
structure DB where
  users : List UserRow
  quizzes : List QuizRow
  subjects : List SubjectRow
  question_bank : List QuestionBankRow
  quiz_attempts : List QuizAttemptRow
  quiz_assignments : List QuizAssignmentRow
  user_token_blocks : List UserTokenBlockRow
  answers : List AnswerRow
  revoked_tokens : List RevokedTokenRow
  indexes : List String
deriving DecidableEq, Repr

/-- Row data of the database without the index set: used to state that an
operation changed no table contents. -/
def DB.rowData (db : DB) :=
  (db.users, db.quizzes, db.subjects, db.question_bank, db.quiz_attempts,
   db.quiz_assignments, db.user_token_blocks, db.answers, db.revoked_tokens)

/-! ### Entity merge (`_merge_users_by_key`) -/

/-- WHERE clause of the merge CTE: `key IS NOT NULL` when the not-null filter
is requested, `TRUE` otherwise. -/
def eligibleUser (nn : Bool) (key : UserRow → Option String) (u : UserRow) : Prop :=
  nn = true → (key u).isSome

instance (nn : Bool) (key : UserRow → Option String) (u : UserRow) :
    Decidable (eligibleUser nn key u) := by
  unfold eligibleUser; infer_instance

/-- Rows of `public.users` satisfying the merge WHERE clause. -/
def eligibleUsers (users : List UserRow) (key : UserRow → Option String)
    (nn : Bool) : List UserRow :=
  users.filter fun u => decide (eligibleUser nn key u)

/-- The window partition of `u`: the eligible rows sharing the key value of
`u`.  SQL window partitioning compares NULL keys as equal, so rows with a
NULL key form a single partition. -/
def mergeGroup (users : List UserRow) (key : UserRow → Option String)
    (nn : Bool) (u : UserRow) : List UserRow :=
  (eligibleUsers users key nn).filter fun v => decide (key v = key u)

/-- The `MIN(id) OVER (PARTITION BY key)` value for the partition of `u`.
The fold is seeded with the id of `u` itself, which belongs to the partition
whenever `u` is eligible. -/
def keepId (users : List UserRow) (key : UserRow → Option String) (nn : Bool)
    (u : UserRow) : Nat :=
  ((mergeGroup users key nn u).map (fun v => v.id)).foldr min u.id

/-- The `pairs` CTE: one `(old_id, keep_id)` row per eligible user whose id
differs from its partition minimum. -/
def mergePairs (users : List UserRow) (key : UserRow → Option String)
    (nn : Bool) : List (Nat × Nat) :=
  (eligibleUsers users key nn).filterMap fun u =>
    if u.id = keepId users key nn u then none
    else some (u.id, keepId users key nn u)

/-- Effect of `UPDATE t SET col = p.keep_id FROM pairs p WHERE col = p.old_id`
on a single foreign-key value. -/
def rewriteRef (pairs : List (Nat × Nat)) : Option Nat → Option Nat
  | none => none
  | some x =>
    match pairs.find? (fun p => decide (p.1 = x)) with
    | some p => some p.2
    | none => some x

/-- The whole of `_merge_users_by_key`: rewrite the six referencing tables
from old ids to keep ids, then delete the non-surviving user rows; returns
the new state and the DELETE rowcount. -/
def merge_users_by_key (db : DB) (key : UserRow → Option String) (nn : Bool) :
    DB × Nat :=
  let pairs := mergePairs db.users key nn
  let isOld := fun (i : Nat) => pairs.any fun p => decide (p.1 = i)
  let survivors := db.users.filter fun u => !isOld u.id
  let removed := db.users.filter fun u => isOld u.id
  ({ db with
      users := survivors
      quizzes := db.quizzes.map fun q =>
        { q with creator_id := rewriteRef pairs q.creator_id }
      subjects := db.subjects.map fun s =>
        { s with creator_id := rewriteRef pairs s.creator_id }
      question_bank := db.question_bank.map fun qb =>
        { qb with creator_id := rewriteRef pairs qb.creator_id }
      quiz_attempts := db.quiz_attempts.map fun qa =>
        { qa with student_id := rewriteRef pairs qa.student_id }
      quiz_assignments := db.quiz_assignments.map fun qa =>
        { qa with student_id := rewriteRef pairs qa.student_id }
      user_token_blocks := db.user_token_blocks.map fun ub =>
        { ub with user_id := rewriteRef pairs ub.user_id } },
   removed.length)

/-! ### Row dedupe (`_dedupe_answers` and friends) -/

/-- Deletion of the rows with `ROW_NUMBER() > 1`: a row is removed exactly
when some row of the same partition sorts strictly before it in the window
ORDER BY.  (Every ORDER BY of the script ends in `id DESC`, so for rows with
pairwise distinct ids — guaranteed by the primary key — the ordering within a
partition is total and this matches the SQL row numbering exactly.) -/
def rowNumberDelete {α : Type} (same sortsBefore : α → α → Prop)
    [DecidableEq α]
    [∀ a b, Decidable (same a b)] [∀ a b, Decidable (sortsBefore a b)]
    (l : List α) : List α :=
  l.filter fun r => decide (∀ s ∈ l, ¬(same s r ∧ sortsBefore s r))

/-- Strict comparison of two nullable timestamps under `DESC NULLS LAST`:
the first sorts strictly before the second. -/
def tsBefore : Option Nat → Option Nat → Prop
  | some a, some b => b < a
  | some _, none => True
  | none, some _ => False
  | none, none => False

instance : ∀ x y : Option Nat, Decidable (tsBefore x y)
  | some a, some b => inferInstanceAs (Decidable (b < a))
  | some _, none => .isTrue trivial
  | none, some _ => .isFalse fun h => h
  | none, none => .isFalse fun h => h

/-- Ordering `ts DESC NULLS LAST, id DESC`: `s` sorts strictly before `r`. -/
def recencyBefore {α : Type} (ts : α → Option Nat) (idOf : α → Nat)
    (s r : α) : Prop :=
  tsBefore (ts s) (ts r) ∨ (ts s = ts r ∧ idOf r < idOf s)

instance {α : Type} (ts : α → Option Nat) (idOf : α → Nat) (s r : α) :
    Decidable (recencyBefore ts idOf s r) := by
  unfold recencyBefore; infer_instance

/-- `_dedupe_answers`: partition by `(attempt_id, question_id)`, order by
`id DESC` only; keep rank 1, delete the rest. -/
def dedupe_answers (db : DB) : DB × Nat :=
  let kept := rowNumberDelete
    (fun s r => s.attempt_id = r.attempt_id ∧ s.question_id = r.question_id)
    (fun s r => r.id < s.id)
    db.answers
  ({ db with answers := kept }, db.answers.length - kept.length)

/-- `_dedupe_quiz_assignments`: partition by `(quiz_id, student_id)`, order
by `assigned_at DESC NULLS LAST, id DESC`. -/
def dedupe_quiz_assignments (db : DB) : DB × Nat :=
  let kept := rowNumberDelete
    (fun s r => s.quiz_id = r.quiz_id ∧ s.student_id = r.student_id)
    (recencyBefore (fun r => r.assigned_at) (fun r => r.id))
    db.quiz_assignments
  ({ db with quiz_assignments := kept }, db.quiz_assignments.length - kept.length)

/-- `_dedupe_revoked_tokens`: partition by `jti`, order by
`revoked_at DESC NULLS LAST, id DESC`. -/
def dedupe_revoked_tokens (db : DB) : DB × Nat :=
  let kept := rowNumberDelete
    (fun s r => s.jti = r.jti)
    (recencyBefore (fun r => r.revoked_at) (fun r => r.id))
    db.revoked_tokens
  ({ db with revoked_tokens := kept }, db.revoked_tokens.length - kept.length)

/-- `_dedupe_user_token_blocks`: partition by `user_id`, order by
`revoked_before DESC NULLS LAST, id DESC`. -/
def dedupe_user_token_blocks (db : DB) : DB × Nat :=
  let kept := rowNumberDelete
    (fun s r => s.user_id = r.user_id)
    (recencyBefore (fun r => r.revoked_before) (fun r => r.id))
    db.user_token_blocks
  ({ db with user_token_blocks := kept }, db.user_token_blocks.length - kept.length)

/-- `_run_auto_fix`: the two user merges (email without the not-null filter,
student_id with it) followed by the four row dedupes; the returned number
totals the deleted rows across all six steps. -/
def run_auto_fix (db : DB) : DB × Nat :=
  let r1 := merge_users_by_key db (fun u => u.email) false
  let r2 := merge_users_by_key r1.1 (fun u => u.student_id) true
  let r3 := dedupe_answers r2.1
  let r4 := dedupe_quiz_assignments r3.1
  let r5 := dedupe_revoked_tokens r4.1
  let r6 := dedupe_user_token_blocks r5.1
  (r6.1, r1.2 + r2.2 + r3.2 + r4.2 + r5.2 + r6.2)

/-! ### Audit (`UNIQUE_CHECKS` and `_load_precheck`) -/

/-- Names of the six declared unique-constraint rules, in declaration
order. -/
inductive Rule
  | uq_answers_attempt_question
  | uq_quiz_assignments_quiz_student
  | uq_revoked_tokens_jti
  | uq_user_token_blocks_user_id
  | uq_users_email
  | uq_users_student_id
deriving DecidableEq, Repr

/-- The `UNIQUE_CHECKS` list, in source order. -/
def UNIQUE_CHECKS : List Rule :=
  [.uq_answers_attempt_question, .uq_quiz_assignments_quiz_student,
   .uq_revoked_tokens_jti, .uq_user_token_blocks_user_id,
   .uq_users_email, .uq_users_student_id]

/-- Number of key values shared by more than one row: the
`SELECT COUNT(*) FROM (... GROUP BY key HAVING COUNT(*) > 1)` pattern of
every `duplicate_count_sql`.  SQL GROUP BY compares NULL keys as equal, which
the `Option` key type reflects. -/
def dupGroupCount {α κ : Type} [DecidableEq α] [DecidableEq κ]
    (rows : List α) (key : α → κ) : Nat :=
  (((rows.map key).dedup).filter fun k =>
    decide (1 < (rows.filter fun r => decide (key r = k)).length)).length

/-- The duplicate-detection query of each rule, evaluated on a state. -/
def duplicateGroups (db : DB) : Rule → Nat
  | .uq_answers_attempt_question =>
      dupGroupCount db.answers fun r => (r.attempt_id, r.question_id)
  | .uq_quiz_assignments_quiz_student =>
      dupGroupCount db.quiz_assignments fun r => (r.quiz_id, r.student_id)
  | .uq_revoked_tokens_jti =>
      dupGroupCount db.revoked_tokens fun r => r.jti
  | .uq_user_token_blocks_user_id =>
      dupGroupCount db.user_token_blocks fun r => r.user_id
  | .uq_users_email =>
      dupGroupCount db.users fun r => r.email
  | .uq_users_student_id =>
      dupGroupCount (db.users.filter fun u => u.student_id.isSome)
        fun r => r.student_id

/-- `_load_precheck`: classify every rule, in list order, as blocked (with
its recorded group count) or ready.  Read-only: no state is produced. -/
def load_precheck (db : DB) : List (Rule × Nat) × List Rule :=
  (UNIQUE_CHECKS.filterMap fun c =>
      if 0 < duplicateGroups db c then some (c, duplicateGroups db c) else none,
   UNIQUE_CHECKS.filter fun c => decide (duplicateGroups db c = 0))

/-! ### Index application -/

/-- Name of the unique index each rule creates. -/
def Rule.indexName : Rule → String
  | .uq_answers_attempt_question => "uq_answers_attempt_question"
  | .uq_quiz_assignments_quiz_student => "uq_quiz_assignments_quiz_student"
  | .uq_revoked_tokens_jti => "uq_revoked_tokens_jti"
  | .uq_user_token_blocks_user_id => "uq_user_token_blocks_user_id"
  | .uq_users_email => "uq_users_email"
  | .uq_users_student_id => "uq_users_student_id"

/-- The `NON_UNIQUE_INDEXES` list (names only; each entry is one
`CREATE INDEX IF NOT EXISTS` statement). -/
def NON_UNIQUE_INDEXES : List String :=
  ["ix_answers_attempt_id", "ix_answers_question_id",
   "ix_question_bank_subject_id", "ix_question_bank_creator_id",
   "ix_questions_quiz_id", "ix_questions_question_bank_id",
   "ix_quiz_attempts_quiz_id", "ix_quiz_attempts_student_id",
   "ix_quizzes_creator_id", "ix_quizzes_subject_id", "ix_subjects_creator_id"]

/-- `CREATE ... INDEX IF NOT EXISTS name`: add the name unless present. -/
def createIndexIfNotExists (idxs : List String) (name : String) : List String :=
  if name ∈ idxs then idxs else idxs ++ [name]

/-- The apply section of `run`: issue the create statement of every ready
rule, then every non-unique index statement. -/
def applyIndexes (db : DB) (ready : List Rule) : DB :=
  let afterUnique :=
    (ready.map Rule.indexName).foldl createIndexIfNotExists db.indexes
  { db with indexes := NON_UNIQUE_INDEXES.foldl createIndexIfNotExists afterUnique }

/-! ### Orchestration (`run`) -/

/-- Invocation surface of `run` plus the two environment observations it
makes: the dialect name reported by the live engine, and whether the
`pg_dump` subprocess run by `_maybe_run_backup` succeeds. -/
structure Config where
  dialect : String
  applyChanges : Bool
  autoFix : Bool
  backupFile : Option String
  backupOk : Bool
deriving DecidableEq, Repr

/-- Outcome of one invocation of `run`: the return code, the final database
state, the total DELETE rowcount, the rules whose unique-index creation
statement was issued, the non-unique index statements issued, and whether the
backup subprocess was invoked. -/
structure RunResult where
  code : Nat
  db : DB
  deletedRows : Nat
  appliedUnique : List Rule
  appliedNonUnique : List String
  backupRan : Bool
deriving DecidableEq, Repr

/-- The `run` function: dialect gate, flag gate, pre-check, dry-run exit,
backup-gated auto-fix with re-check, index application, and final code. -/
def run (cfg : Config) (db : DB) : RunResult :=
  if cfg.dialect ≠ "postgresql" then
    { code := 2, db := db, deletedRows := 0, appliedUnique := [],
      appliedNonUnique := [], backupRan := false }
  else if cfg.autoFix = true ∧ cfg.applyChanges = false then
    { code := 2, db := db, deletedRows := 0, appliedUnique := [],
      appliedNonUnique := [], backupRan := false }
  else
    let blocked := (load_precheck db).1
    let ready := (load_precheck db).2
    if cfg.applyChanges = false then
      { code := if blocked = [] then 0 else 1, db := db, deletedRows := 0,
        appliedUnique := [], appliedNonUnique := [], backupRan := false }
    else if cfg.autoFix = true ∧ blocked ≠ [] then
      if cfg.backupFile.isSome ∧ cfg.backupOk = false then
        { code := 2, db := db, deletedRows := 0, appliedUnique := [],
          appliedNonUnique := [], backupRan := true }
      else
        let fixed := run_auto_fix db
        let blocked2 := (load_precheck fixed.1).1
        let ready2 := (load_precheck fixed.1).2
        { code := if blocked2 = [] then 0 else 1,
          db := applyIndexes fixed.1 ready2, deletedRows := fixed.2,
          appliedUnique := ready2, appliedNonUnique := NON_UNIQUE_INDEXES,
          backupRan := cfg.backupFile.isSome }
    else
      { code := if blocked = [] then 0 else 1, db := applyIndexes db ready,
        deletedRows := 0, appliedUnique := ready,
        appliedNonUnique := NON_UNIQUE_INDEXES, backupRan := false }

/-! ### Concrete states and configurations used to exercise the theorems -/

/-- A database with every table empty and no indexes. -/
def emptyDB : DB := ⟨[], [], [], [], [], [], [], [], [], []⟩

/-- Two user rows sharing the email `a@x`, the later one owning a quiz. -/
def dupUsersDB : DB :=
  { emptyDB with
      users := [⟨1, some "a@x", none⟩, ⟨2, some "a@x", none⟩]
      quizzes := [⟨10, some 2⟩] }

/-- Two users with a NULL email each, one owning a quiz. -/
def nullEmailDB : DB :=
  { emptyDB with
      users := [⟨3, none, none⟩, ⟨5, none, none⟩]
      quizzes := [⟨11, some 5⟩] }

/-- Three answer rows for the same `(attempt_id, question_id)` with distinct
ids; the latest timestamp belongs to the row with the smallest id. -/
def tripleAnswersDB : DB :=
  { emptyDB with
      answers := [⟨1, 7, 7, some 100⟩, ⟨2, 7, 7, some 50⟩, ⟨3, 7, 7, some 10⟩] }

/-- Duplicate groups in each of the three row-dedupe tables of C9. -/
def rowDupDB : DB :=
  { emptyDB with
      quiz_assignments := [⟨1, 5, some 9, some 10⟩, ⟨2, 5, some 9, some 20⟩]
      revoked_tokens := [⟨4, "jti1", some 5⟩, ⟨6, "jti1", none⟩]
      user_token_blocks := [⟨1, some 4, none⟩, ⟨2, some 4, none⟩] }

/-- Plain apply run: PostgreSQL dialect, `--apply`, no auto-fix. -/
def cfgPlain : Config := ⟨"postgresql", true, false, none, true⟩

/-- Apply with auto-fix, no backup file. -/
def cfgAutoNoBackup : Config := ⟨"postgresql", true, true, none, false⟩

/-- Apply with auto-fix and a backup file whose `pg_dump` run fails. -/
def cfgBackupFail : Config := ⟨"postgresql", true, true, some "b.dump", false⟩

/-- Apply with auto-fix and a backup file whose `pg_dump` run succeeds. -/
def cfgBackupOk : Config := ⟨"postgresql", true, true, some "b.dump", true⟩

/-- A run against a non-PostgreSQL engine. -/
def cfgWrongDialect : Config := ⟨"sqlite", true, false, none, true⟩

/-! ## Helper lemmas -/

theorem mem_rowNumberDelete {α : Type} (same sortsBefore : α → α → Prop)
    [DecidableEq α]
    [∀ a b, Decidable (same a b)] [∀ a b, Decidable (sortsBefore a b)]
    (l : List α) (r : α) :
    r ∈ rowNumberDelete same sortsBefore l ↔
      r ∈ l ∧ ∀ s ∈ l, ¬(same s r ∧ sortsBefore s r) := by
  simp [rowNumberDelete, List.mem_filter]

theorem rowNumberDelete_keeps_top {α : Type} [DecidableEq α]
    (same sortsBefore : α → α → Prop)
    [∀ a b, Decidable (same a b)] [∀ a b, Decidable (sortsBefore a b)]
    (hsymm : ∀ a b, same a b → same b a)
    (hirr : ∀ a, ¬sortsBefore a a)
    (hasym : ∀ a b, sortsBefore a b → ¬sortsBefore b a)
    (l : List α) (r : α) (hr : r ∈ l)
    (htop : ∀ s ∈ l, same s r → s ≠ r → sortsBefore r s) :
    r ∈ rowNumberDelete same sortsBefore l ∧
      ∀ s ∈ rowNumberDelete same sortsBefore l, same s r → s = r := by
  constructor
  · rw [mem_rowNumberDelete]
    refine ⟨hr, fun s hs hcon => ?_⟩
    by_cases hsr : s = r
    · subst hsr; exact hirr s hcon.2
    · exact hasym r s (htop s hs hcon.1 hsr) hcon.2
  · intro s hs hsame
    rw [mem_rowNumberDelete] at hs
    by_contra hne
    exact hs.2 r hr ⟨hsymm s r hsame, htop s hs.1 hsame hne⟩

theorem tsBefore_irrefl (x : Option Nat) : ¬tsBefore x x := by
  cases x <;> simp [tsBefore]

theorem tsBefore_asymm (x y : Option Nat) : tsBefore x y → ¬tsBefore y x := by
  cases x <;> cases y <;> (simp [tsBefore]; try omega)

theorem recencyBefore_irrefl {α : Type} (ts : α → Option Nat) (idOf : α → Nat)
    (a : α) : ¬recencyBefore ts idOf a a := by
  rintro (h | ⟨-, h⟩)
  · exact tsBefore_irrefl _ h
  · exact Nat.lt_irrefl _ h

theorem recencyBefore_asymm {α : Type} (ts : α → Option Nat) (idOf : α → Nat)
    (a b : α) : recencyBefore ts idOf a b → ¬recencyBefore ts idOf b a := by
  rintro (h | ⟨he, hi⟩) (h' | ⟨he', hi'⟩)
  · exact tsBefore_asymm _ _ h h'
  · rw [he'] at h; exact tsBefore_irrefl _ h
  · rw [he] at h'; exact tsBefore_irrefl _ h'
  · omega

theorem mem_UNIQUE_CHECKS (r : Rule) : r ∈ UNIQUE_CHECKS := by
  cases r <;> simp [UNIQUE_CHECKS]

theorem mem_blocked_iff (db : DB) (r : Rule) (c : Nat) :
    (r, c) ∈ (load_precheck db).1 ↔ c = duplicateGroups db r ∧ 0 < c := by
  simp only [load_precheck, List.mem_filterMap]
  constructor
  · rintro ⟨a, _, hf⟩
    split at hf
    · next h =>
      simp only [Option.some_inj, Prod.mk.injEq] at hf
      obtain ⟨rfl, rfl⟩ := hf
      exact ⟨rfl, h⟩
    · exact absurd hf (by simp)
  · rintro ⟨rfl, hc⟩
    exact ⟨r, mem_UNIQUE_CHECKS r, by simp [hc]⟩

theorem mem_ready_iff (db : DB) (r : Rule) :
    r ∈ (load_precheck db).2 ↔ duplicateGroups db r = 0 := by
  simp [load_precheck, List.mem_filter, mem_UNIQUE_CHECKS]

theorem blocked_eq_nil_iff (db : DB) :
    (load_precheck db).1 = [] ↔ ∀ r, duplicateGroups db r = 0 := by
  constructor
  · intro h r
    by_contra hne
    have hmem : (r, duplicateGroups db r) ∈ (load_precheck db).1 :=
      (mem_blocked_iff db r _).mpr ⟨rfl, Nat.pos_of_ne_zero hne⟩
    rw [h] at hmem
    exact absurd hmem (List.not_mem_nil _)
  · intro h
    rw [List.eq_nil_iff_forall_not_mem]
    rintro ⟨r, c⟩ hmem
    have := (mem_blocked_iff db r c).mp hmem
    rw [h r] at this
    omega

theorem duplicateGroups_applyIndexes (db : DB) (l : List Rule) :
    duplicateGroups (applyIndexes db l) = duplicateGroups db :=
  funext fun r => by cases r <;> simp [duplicateGroups, applyIndexes]

theorem load_precheck_applyIndexes (db : DB) (l : List Rule) :
    load_precheck (applyIndexes db l) = load_precheck db := by
  unfold load_precheck
  rw [duplicateGroups_applyIndexes]

theorem applyIndexes_rowData (db : DB) (l : List Rule) :
    (applyIndexes db l).rowData = db.rowData := by
  simp [applyIndexes, DB.rowData]

theorem run_eq_of_wrong_dialect (cfg : Config) (db : DB)
    (h : cfg.dialect ≠ "postgresql") :
    run cfg db = ⟨2, db, 0, [], [], false⟩ := by
  simp [run, h]

theorem run_eq_of_bad_flags (cfg : Config) (db : DB)
    (hf : cfg.autoFix = true) (ha : cfg.applyChanges = false) :
    run cfg db = ⟨2, db, 0, [], [], false⟩ := by
  by_cases hd : cfg.dialect = "postgresql"
  · simp [run, hd, hf, ha]
  · simp [run, hd]

theorem run_eq_dry (cfg : Config) (db : DB)
    (hd : cfg.dialect = "postgresql") (ha : cfg.applyChanges = false)
    (hf : cfg.autoFix = false) :
    run cfg db =
      ⟨if (load_precheck db).1 = [] then 0 else 1, db, 0, [], [], false⟩ := by
  simp [run, hd, ha, hf]

theorem run_eq_backup_fail (cfg : Config) (db : DB)
    (hd : cfg.dialect = "postgresql") (ha : cfg.applyChanges = true)
    (hf : cfg.autoFix = true) (hb : (load_precheck db).1 ≠ [])
    (hbf : cfg.backupFile.isSome = true) (hbo : cfg.backupOk = false) :
    run cfg db = ⟨2, db, 0, [], [], true⟩ := by
  simp [run, hd, ha, hf, hb, hbf, hbo]

theorem run_eq_autofix (cfg : Config) (db : DB)
    (hd : cfg.dialect = "postgresql") (ha : cfg.applyChanges = true)
    (hf : cfg.autoFix = true) (hb : (load_precheck db).1 ≠ [])
    (hok : ¬(cfg.backupFile.isSome = true ∧ cfg.backupOk = false)) :
    run cfg db =
      ⟨if (load_precheck (run_auto_fix db).1).1 = [] then 0 else 1,
       applyIndexes (run_auto_fix db).1 (load_precheck (run_auto_fix db).1).2,
       (run_auto_fix db).2, (load_precheck (run_auto_fix db).1).2,
       NON_UNIQUE_INDEXES, cfg.backupFile.isSome⟩ := by
  simp [run, hd, ha, hf, hb, hok]

theorem run_eq_plain (cfg : Config) (db : DB)
    (hd : cfg.dialect = "postgresql") (ha : cfg.applyChanges = true)
    (hnofix : ¬(cfg.autoFix = true ∧ (load_precheck db).1 ≠ [])) :
    run cfg db =
      ⟨if (load_precheck db).1 = [] then 0 else 1,
       applyIndexes db (load_precheck db).2, 0, (load_precheck db).2,
       NON_UNIQUE_INDEXES, false⟩ := by
  simp only [run, hd, ha]
  simp [hnofix]

theorem mem_createIndexIfNotExists (idxs : List String) (n m : String)
    (h : m ∈ idxs) : m ∈ createIndexIfNotExists idxs n := by
  unfold createIndexIfNotExists
  split
  · exact h
  · exact List.mem_append_left _ h

theorem self_mem_createIndexIfNotExists (idxs : List String) (n : String) :
    n ∈ createIndexIfNotExists idxs n := by
  unfold createIndexIfNotExists
  split
  · assumption
  · simp

theorem createIndexIfNotExists_eq_of_mem (idxs : List String) (n : String)
    (h : n ∈ idxs) : createIndexIfNotExists idxs n = idxs := by
  unfold createIndexIfNotExists
  rw [if_pos h]

theorem mem_foldl_create_of_mem (names : List String) (idxs : List String)
    (m : String) (h : m ∈ idxs) :
    m ∈ names.foldl createIndexIfNotExists idxs := by
  induction names generalizing idxs with
  | nil => exact h
  | cons n ns ih => exact ih _ (mem_createIndexIfNotExists _ _ _ h)

theorem mem_foldl_create_of_name (names : List String) (idxs : List String)
    (n : String) (h : n ∈ names) :
    n ∈ names.foldl createIndexIfNotExists idxs := by
  induction names generalizing idxs with
  | nil => cases h
  | cons m ms ih =>
    rcases List.mem_cons.mp h with rfl | h2
    · rw [List.foldl_cons]
      exact mem_foldl_create_of_mem _ _ _ (self_mem_createIndexIfNotExists _ _)
    · rw [List.foldl_cons]
      exact ih _ h2

theorem foldl_create_eq_of_mem (names : List String) (idxs : List String)
    (h : ∀ n ∈ names, n ∈ idxs) :
    names.foldl createIndexIfNotExists idxs = idxs := by
  induction names with
  | nil => rfl
  | cons n ns ih =>
    rw [List.foldl_cons, createIndexIfNotExists_eq_of_mem _ _ (h n (by simp))]
    exact ih fun m hm => h m (List.mem_cons_of_mem _ hm)

theorem mem_indexes_applyIndexes_unique (db : DB) (l : List Rule) (n : String)
    (h : n ∈ l.map Rule.indexName) : n ∈ (applyIndexes db l).indexes := by
  simp only [applyIndexes]
  exact mem_foldl_create_of_mem _ _ _ (mem_foldl_create_of_name _ _ _ h)

theorem mem_indexes_applyIndexes_nonunique (db : DB) (l : List Rule)
    (n : String) (h : n ∈ NON_UNIQUE_INDEXES) :
    n ∈ (applyIndexes db l).indexes := by
  simp only [applyIndexes]
  exact mem_foldl_create_of_name _ _ _ h

theorem applyIndexes_eq_self (db : DB) (l : List Rule)
    (h1 : ∀ n ∈ l.map Rule.indexName, n ∈ db.indexes)
    (h2 : ∀ n ∈ NON_UNIQUE_INDEXES, n ∈ db.indexes) :
    applyIndexes db l = db := by
  obtain ⟨u, q, s, qb, qa, qas, ub, ans, rt, idx⟩ := db
  unfold applyIndexes
  dsimp only at h1 h2 ⊢
  rw [foldl_create_eq_of_mem _ _ h1, foldl_create_eq_of_mem _ _ h2]

/-! ## Claim theorems -/

/-- C8: the audit pass (`_load_precheck`) classifies a rule as blocked
exactly when its duplicate-detection query counts more than zero offending
groups, recording that count; it classifies it as ready exactly when the
count is zero; every rule of the declared rule list lands in exactly one of
the two result lists.  (The pass is read-only: `load_precheck` consumes the
state and produces only the two classification lists, no new state.) -/
theorem audit_partitions_rules (db : DB) (r : Rule) (c : Nat) :
    ((r, c) ∈ (load_precheck db).1 ↔ c = duplicateGroups db r ∧ 0 < c) ∧
    (r ∈ (load_precheck db).2 ↔ duplicateGroups db r = 0) ∧
    r ∈ UNIQUE_CHECKS ∧
    (r ∈ (load_precheck db).2 ↔ ¬∃ k, (r, k) ∈ (load_precheck db).1) := by
  refine ⟨mem_blocked_iff db r c, mem_ready_iff db r, mem_UNIQUE_CHECKS r, ?_⟩
  rw [mem_ready_iff]
  constructor
  · rintro h0 ⟨k, hk⟩
    rw [mem_blocked_iff] at hk
    omega
  · intro h
    by_contra hne
    exact h ⟨duplicateGroups db r,
      (mem_blocked_iff db r _).mpr ⟨rfl, Nat.pos_of_ne_zero hne⟩⟩

/-- C4: a unique-index creation statement is issued only for rules that the
most recent audit pass classified as ready; since index creation mutates no
rows, the rule's duplicate count in the final state is zero, so no unique
index is ever applied while its rule is blocked. -/
theorem unique_index_only_when_ready (cfg : Config) (db : DB) (r : Rule)
    (h : r ∈ (run cfg db).appliedUnique) :
    duplicateGroups (run cfg db).db r = 0 := by
  by_cases hd : cfg.dialect = "postgresql"
  · by_cases ha : cfg.applyChanges = true
    · by_cases hfix : cfg.autoFix = true ∧ (load_precheck db).1 ≠ []
      · by_cases hbk : cfg.backupFile.isSome = true ∧ cfg.backupOk = false
        · rw [run_eq_backup_fail cfg db hd ha hfix.1 hfix.2 hbk.1 hbk.2] at h
          simp at h
        · rw [run_eq_autofix cfg db hd ha hfix.1 hfix.2 hbk] at h ⊢
          simp only at h ⊢
          rw [duplicateGroups_applyIndexes]
          exact (mem_ready_iff _ r).mp h
      · rw [run_eq_plain cfg db hd ha hfix] at h ⊢
        simp only at h ⊢
        rw [duplicateGroups_applyIndexes]
        exact (mem_ready_iff _ r).mp h
    · have ha' : cfg.applyChanges = false := Bool.eq_false_iff.mpr ha
      by_cases hf : cfg.autoFix = true
      · rw [run_eq_of_bad_flags cfg db hf ha'] at h
        simp at h
      · rw [run_eq_dry cfg db hd ha' (Bool.eq_false_iff.mpr hf)] at h
        simp at h
  · rw [run_eq_of_wrong_dialect cfg db hd] at h
    simp at h

/-- C4 witness: a clean database under a plain apply run issues the
`uq_users_email` statement, and its duplicate count in the final state is
zero. -/
theorem unique_index_only_when_ready_witness :
    duplicateGroups (run cfgPlain emptyDB).db Rule.uq_users_email = 0 :=
  unique_index_only_when_ready cfgPlain emptyDB Rule.uq_users_email (by decide)

/-- C6: with auto-fix requested, a blocking duplicate present and a backup
path given, a failing `pg_dump` invocation aborts the run with code 2: the
state is unchanged, no row is deleted and no index statement is issued. -/
theorem backup_failure_aborts (cfg : Config) (db : DB)
    (hd : cfg.dialect = "postgresql") (ha : cfg.applyChanges = true)
    (hf : cfg.autoFix = true) (hb : (load_precheck db).1 ≠ [])
    (hbf : cfg.backupFile.isSome = true) (hbo : cfg.backupOk = false) :
    (run cfg db).code = 2 ∧ (run cfg db).db = db ∧
      (run cfg db).deletedRows = 0 ∧ (run cfg db).appliedUnique = [] ∧
      (run cfg db).appliedNonUnique = [] ∧ (run cfg db).backupRan = true := by
  rw [run_eq_backup_fail cfg db hd ha hf hb hbf hbo]
  exact ⟨rfl, rfl, rfl, rfl, rfl, rfl⟩

/-- C6 witness: the duplicate-email database under a failing-backup
configuration. -/
theorem backup_failure_aborts_witness :
    (run cfgBackupFail dupUsersDB).code = 2 ∧
      (run cfgBackupFail dupUsersDB).db = dupUsersDB ∧
      (run cfgBackupFail dupUsersDB).deletedRows = 0 ∧
      (run cfgBackupFail dupUsersDB).appliedUnique = [] ∧
      (run cfgBackupFail dupUsersDB).appliedNonUnique = [] ∧
      (run cfgBackupFail dupUsersDB).backupRan = true :=
  backup_failure_aborts cfgBackupFail dupUsersDB rfl rfl rfl (by decide) rfl rfl

/-- C3: return-code contract of `run`.  Wrong dialect or `auto_fix` without
`apply` return 2 untouched; a valid dry run returns 1 exactly when some rule
is blocked and mutates nothing; a failing requested backup returns 2
untouched; a plain apply returns 1 exactly when some rule stayed blocked and
issues the ready statements; an auto-fix apply does the same against the
re-audited state; and every return of 2 is one of the three hard failures,
with no row deleted and no index statement issued. -/
theorem run_return_codes (cfg : Config) (db : DB) :
    (cfg.dialect ≠ "postgresql" → run cfg db = ⟨2, db, 0, [], [], false⟩) ∧
    (cfg.autoFix = true → cfg.applyChanges = false →
      run cfg db = ⟨2, db, 0, [], [], false⟩) ∧
    (cfg.dialect = "postgresql" → cfg.autoFix = false →
      cfg.applyChanges = false →
      (run cfg db).code = (if (load_precheck db).1 = [] then 0 else 1) ∧
        (run cfg db).db = db ∧ (run cfg db).deletedRows = 0 ∧
        (run cfg db).appliedUnique = [] ∧
        (run cfg db).appliedNonUnique = []) ∧
    (cfg.dialect = "postgresql" → cfg.applyChanges = true →
      cfg.autoFix = true → (load_precheck db).1 ≠ [] →
      cfg.backupFile.isSome = true → cfg.backupOk = false →
      run cfg db = ⟨2, db, 0, [], [], true⟩) ∧
    (cfg.dialect = "postgresql" → cfg.applyChanges = true →
      ¬(cfg.autoFix = true ∧ (load_precheck db).1 ≠ []) →
      (run cfg db).code = (if (load_precheck db).1 = [] then 0 else 1) ∧
        (run cfg db).appliedUnique = (load_precheck db).2 ∧
        (run cfg db).deletedRows = 0) ∧
    (cfg.dialect = "postgresql" → cfg.applyChanges = true →
      cfg.autoFix = true → (load_precheck db).1 ≠ [] →
      ¬(cfg.backupFile.isSome = true ∧ cfg.backupOk = false) →
      (run cfg db).code =
          (if (load_precheck (run_auto_fix db).1).1 = [] then 0 else 1) ∧
        (run cfg db).appliedUnique = (load_precheck (run_auto_fix db).1).2) ∧
    ((run cfg db).code = 2 →
      (cfg.dialect ≠ "postgresql" ∨
          (cfg.autoFix = true ∧ cfg.applyChanges = false) ∨
          (cfg.backupFile.isSome = true ∧ cfg.backupOk = false)) ∧
        (run cfg db).db = db ∧ (run cfg db).deletedRows = 0 ∧
        (run cfg db).appliedUnique = [] ∧
        (run cfg db).appliedNonUnique = []) := by
  refine ⟨fun hd => run_eq_of_wrong_dialect cfg db hd,
    fun hf ha => run_eq_of_bad_flags cfg db hf ha,
    fun hd hf ha => ?_, fun hd ha hf hb hbf hbo =>
      run_eq_backup_fail cfg db hd ha hf hb hbf hbo,
    fun hd ha hnofix => ?_, fun hd ha hf hb hok => ?_, fun hc2 => ?_⟩
  · rw [run_eq_dry cfg db hd ha hf]
    exact ⟨rfl, rfl, rfl, rfl, rfl⟩
  · rw [run_eq_plain cfg db hd ha hnofix]
    exact ⟨rfl, rfl, rfl⟩
  · rw [run_eq_autofix cfg db hd ha hf hb hok]
    exact ⟨rfl, rfl⟩
  · by_cases hd : cfg.dialect = "postgresql"
    · by_cases ha : cfg.applyChanges = true
      · by_cases hfix : cfg.autoFix = true ∧ (load_precheck db).1 ≠ []
        · by_cases hbk : cfg.backupFile.isSome = true ∧ cfg.backupOk = false
          · rw [run_eq_backup_fail cfg db hd ha hfix.1 hfix.2 hbk.1 hbk.2]
            exact ⟨Or.inr (Or.inr hbk), rfl, rfl, rfl, rfl⟩
          · rw [run_eq_autofix cfg db hd ha hfix.1 hfix.2 hbk] at hc2
            simp only at hc2
            split at hc2 <;> omega
        · rw [run_eq_plain cfg db hd ha hfix] at hc2
          simp only at hc2
          split at hc2 <;> omega
      · have ha' : cfg.applyChanges = false := Bool.eq_false_iff.mpr ha
        by_cases hf : cfg.autoFix = true
        · rw [run_eq_of_bad_flags cfg db hf ha']
          exact ⟨Or.inr (Or.inl ⟨hf, ha'⟩), rfl, rfl, rfl, rfl⟩
        · rw [run_eq_dry cfg db hd ha' (Bool.eq_false_iff.mpr hf)] at hc2
          simp only at hc2
          split at hc2 <;> omega
    · rw [run_eq_of_wrong_dialect cfg db hd]
      exact ⟨Or.inl hd, rfl, rfl, rfl, rfl⟩

/-- C3 witness: a run against a SQLite engine aborts with code 2 and no
change. -/
theorem run_return_codes_witness :
    run cfgWrongDialect emptyDB = ⟨2, emptyDB, 0, [], [], false⟩ :=
  (run_return_codes cfgWrongDialect emptyDB).1 (by decide)

/-- C5: on a database with no blocked rule, an apply run (with or without
auto-fix) deletes nothing, leaves every table unchanged and returns 0, and
running it a second time returns 0 again, deletes nothing and changes the
state (indexes included) not at all. -/
theorem rerun_is_noop (cfg : Config) (db : DB)
    (hd : cfg.dialect = "postgresql") (ha : cfg.applyChanges = true)
    (hclean : (load_precheck db).1 = []) :
    (run cfg db).code = 0 ∧ (run cfg db).deletedRows = 0 ∧
      (run cfg db).db.rowData = db.rowData ∧
      (run cfg (run cfg db).db).code = 0 ∧
      (run cfg (run cfg db).db).deletedRows = 0 ∧
      (run cfg (run cfg db).db).db = (run cfg db).db := by
  have hnofix : ¬(cfg.autoFix = true ∧ (load_precheck db).1 ≠ []) :=
    fun hcon => hcon.2 hclean
  have e1 := run_eq_plain cfg db hd ha hnofix
  have hpre1 : load_precheck (applyIndexes db (load_precheck db).2) =
      load_precheck db := load_precheck_applyIndexes db _
  have hclean1 :
      (load_precheck (applyIndexes db (load_precheck db).2)).1 = [] := by
    rw [hpre1]; exact hclean
  have hnofix1 : ¬(cfg.autoFix = true ∧
      (load_precheck (applyIndexes db (load_precheck db).2)).1 ≠ []) :=
    fun hcon => hcon.2 hclean1
  have hdb1 : (run cfg db).db = applyIndexes db (load_precheck db).2 := by
    rw [e1]
  refine ⟨?_, ?_, ?_, ?_, ?_, ?_⟩
  · rw [e1]; exact if_pos hclean
  · rw [e1]
  · rw [e1]; exact applyIndexes_rowData db _
  · rw [hdb1, run_eq_plain cfg _ hd ha hnofix1]; exact if_pos hclean1
  · rw [hdb1, run_eq_plain cfg _ hd ha hnofix1]
  · rw [hdb1, run_eq_plain cfg _ hd ha hnofix1]
    show applyIndexes (applyIndexes db (load_precheck db).2)
        (load_precheck (applyIndexes db (load_precheck db).2)).2 =
      applyIndexes db (load_precheck db).2
    rw [hpre1]
    exact applyIndexes_eq_self _ _
      (fun n hn => mem_indexes_applyIndexes_unique db _ n hn)
      (fun n hn => mem_indexes_applyIndexes_nonunique db _ n hn)

/-- C5 witness: the empty database under an auto-fix apply run with a
working backup configuration. -/
theorem rerun_is_noop_witness :
    (run cfgBackupOk emptyDB).code = 0 ∧
      (run cfgBackupOk (run cfgBackupOk emptyDB).db).db =
        (run cfgBackupOk emptyDB).db :=
  ⟨(rerun_is_noop cfgBackupOk emptyDB rfl rfl (by decide)).1,
   (rerun_is_noop cfgBackupOk emptyDB rfl rfl (by decide)).2.2.2.2.2⟩

/-- C7 counterexample: with auto-fix requested, a blocking duplicate present
and no backup path configured, `run` deletes a user row although no backup
was ever invoked — and the invocation surface carries no operator-override
input at all, so the deletion happens with neither a backup nor an explicit
override. -/
theorem dedupe_without_backup_cex :
    (run cfgAutoNoBackup dupUsersDB).deletedRows = 1 ∧
      (run cfgAutoNoBackup dupUsersDB).backupRan = false := by
  constructor <;> rfl

/-- C7 amended: rows are deleted only when either no backup path was
configured (the script then merely warns before the destructive step) or the
backup was invoked and succeeded; a configured backup that fails always
prevents deletion. -/
theorem deletions_gated_by_backup (cfg : Config) (db : DB)
    (h : (run cfg db).deletedRows ≠ 0) :
    cfg.backupFile = none ∨
      ((run cfg db).backupRan = true ∧ cfg.backupOk = true) := by
  by_cases hd : cfg.dialect = "postgresql"
  · by_cases ha : cfg.applyChanges = true
    · by_cases hfix : cfg.autoFix = true ∧ (load_precheck db).1 ≠ []
      · by_cases hbk : cfg.backupFile.isSome = true ∧ cfg.backupOk = false
        · rw [run_eq_backup_fail cfg db hd ha hfix.1 hfix.2 hbk.1 hbk.2] at h
          exact absurd rfl h
        · rw [run_eq_autofix cfg db hd ha hfix.1 hfix.2 hbk]
          cases hbf : cfg.backupFile with
          | none => exact Or.inl rfl
          | some f =>
            by_cases hbo : cfg.backupOk = true
            · exact Or.inr ⟨rfl, hbo⟩
            · exact absurd ⟨by rw [hbf]; rfl, Bool.eq_false_iff.mpr hbo⟩ hbk
      · rw [run_eq_plain cfg db hd ha hfix] at h
        exact absurd rfl h
    · have ha' : cfg.applyChanges = false := Bool.eq_false_iff.mpr ha
      by_cases hf : cfg.autoFix = true
      · rw [run_eq_of_bad_flags cfg db hf ha'] at h
        exact absurd rfl h
      · rw [run_eq_dry cfg db hd ha' (Bool.eq_false_iff.mpr hf)] at h
        exact absurd rfl h
  · rw [run_eq_of_wrong_dialect cfg db hd] at h
    exact absurd rfl h

/-- C7 amended witness: a deleting run with a successful configured backup
satisfies the gate. -/
theorem deletions_gated_by_backup_witness :
    cfgBackupOk.backupFile = none ∨
      ((run cfgBackupOk dupUsersDB).backupRan = true ∧
        cfgBackupOk.backupOk = true) :=
  deletions_gated_by_backup cfgBackupOk dupUsersDB (by decide)

theorem dedupe_answers_answers (db : DB) :
    (dedupe_answers db).1.answers = rowNumberDelete
      (fun s r => s.attempt_id = r.attempt_id ∧ s.question_id = r.question_id)
      (fun s r => r.id < s.id) db.answers := rfl

theorem dedupe_quiz_assignments_rows (db : DB) :
    (dedupe_quiz_assignments db).1.quiz_assignments = rowNumberDelete
      (fun s r => s.quiz_id = r.quiz_id ∧ s.student_id = r.student_id)
      (recencyBefore (fun x => x.assigned_at) (fun x => x.id))
      db.quiz_assignments := rfl

theorem dedupe_revoked_tokens_rows (db : DB) :
    (dedupe_revoked_tokens db).1.revoked_tokens = rowNumberDelete
      (fun s r => s.jti = r.jti)
      (recencyBefore (fun x => x.revoked_at) (fun x => x.id))
      db.revoked_tokens := rfl

theorem dedupe_user_token_blocks_rows (db : DB) :
    (dedupe_user_token_blocks db).1.user_token_blocks = rowNumberDelete
      (fun s r => s.user_id = r.user_id)
      (recencyBefore (fun x => x.revoked_before) (fun x => x.id))
      db.user_token_blocks := rfl

/-- C2 counterexample: three answer rows share `(attempt_id, question_id)`
with distinct ids and distinct timestamps; the row with id 1 carries the
strictly latest timestamp, yet the dedupe keeps the row with id 3 and
removes the row with id 1 — the answers dedupe orders by id alone. -/
theorem dedupe_answers_ignores_timestamp_cex :
    (dedupe_answers tripleAnswersDB).1.answers = [⟨3, 7, 7, some 10⟩] ∧
      (⟨1, 7, 7, some 100⟩ : AnswerRow) ∈ tripleAnswersDB.answers ∧
      (∀ s ∈ tripleAnswersDB.answers, s ≠ ⟨1, 7, 7, some 100⟩ →
        tsBefore (some 100) s.answered_at) ∧
      (⟨1, 7, 7, some 100⟩ : AnswerRow) ∉
        (dedupe_answers tripleAnswersDB).1.answers := by
  refine ⟨by decide, by decide, by decide, by decide⟩

/-- C2 amended: for answer rows with pairwise distinct ids, the dedupe keeps
in each `(attempt_id, question_id)` group exactly the row with the highest
id (the timestamp is never consulted), deleting the others. -/
theorem dedupe_answers_keeps_highest_id (db : DB) (r : AnswerRow)
    (hid : (db.answers.map AnswerRow.id).Nodup)
    (hr : r ∈ db.answers)
    (hmax : ∀ s ∈ db.answers, s.attempt_id = r.attempt_id →
      s.question_id = r.question_id → s.id ≤ r.id) :
    r ∈ (dedupe_answers db).1.answers ∧
      ∀ s ∈ (dedupe_answers db).1.answers,
        s.attempt_id = r.attempt_id ∧ s.question_id = r.question_id →
        s = r := by
  rw [dedupe_answers_answers]
  exact rowNumberDelete_keeps_top _ _
    (fun a b hab => ⟨hab.1.symm, hab.2.symm⟩)
    (fun a => Nat.lt_irrefl a.id)
    (fun a b hab => Nat.lt_asymm hab)
    db.answers r hr
    (fun s hs hsame hne => by
      have hle := hmax s hs hsame.1 hsame.2
      rcases Nat.lt_or_ge s.id r.id with hlt | hge
      · exact hlt
      · exact absurd (List.inj_on_of_nodup_map hid hs hr (Nat.le_antisymm hle hge))
          hne)

/-- C2 amended witness: of the three rows for attempt 7, question 7, the one
with id 3 survives. -/
theorem dedupe_answers_keeps_highest_id_witness :
    (⟨3, 7, 7, some 10⟩ : AnswerRow) ∈
      (dedupe_answers tripleAnswersDB).1.answers :=
  (dedupe_answers_keeps_highest_id tripleAnswersDB ⟨3, 7, 7, some 10⟩
    (by decide) (by decide) (by decide)).1

/-- C9: in each of the three recency-ranked dedupe tables, the row of a key
group that precedes every other group member under
`recency DESC NULLS LAST, id DESC` is kept and is the only row of its group
that remains; a row alone in its group is untouched. -/
theorem row_dedupe_keeps_most_recent (db : DB) :
    (∀ r ∈ db.quiz_assignments,
      (∀ s ∈ db.quiz_assignments,
        s.quiz_id = r.quiz_id ∧ s.student_id = r.student_id → s ≠ r →
        recencyBefore (fun x => x.assigned_at) (fun x => x.id) r s) →
      r ∈ (dedupe_quiz_assignments db).1.quiz_assignments ∧
        ∀ s ∈ (dedupe_quiz_assignments db).1.quiz_assignments,
          s.quiz_id = r.quiz_id ∧ s.student_id = r.student_id → s = r) ∧
    (∀ r ∈ db.revoked_tokens,
      (∀ s ∈ db.revoked_tokens, s.jti = r.jti → s ≠ r →
        recencyBefore (fun x => x.revoked_at) (fun x => x.id) r s) →
      r ∈ (dedupe_revoked_tokens db).1.revoked_tokens ∧
        ∀ s ∈ (dedupe_revoked_tokens db).1.revoked_tokens,
          s.jti = r.jti → s = r) ∧
    (∀ r ∈ db.user_token_blocks,
      (∀ s ∈ db.user_token_blocks, s.user_id = r.user_id → s ≠ r →
        recencyBefore (fun x => x.revoked_before) (fun x => x.id) r s) →
      r ∈ (dedupe_user_token_blocks db).1.user_token_blocks ∧
        ∀ s ∈ (dedupe_user_token_blocks db).1.user_token_blocks,
          s.user_id = r.user_id → s = r) ∧
    (∀ r ∈ db.quiz_assignments,
      (∀ s ∈ db.quiz_assignments,
        s.quiz_id = r.quiz_id ∧ s.student_id = r.student_id → s = r) →
      r ∈ (dedupe_quiz_assignments db).1.quiz_assignments) ∧
    (∀ r ∈ db.revoked_tokens,
      (∀ s ∈ db.revoked_tokens, s.jti = r.jti → s = r) →
      r ∈ (dedupe_revoked_tokens db).1.revoked_tokens) ∧
    (∀ r ∈ db.user_token_blocks,
      (∀ s ∈ db.user_token_blocks, s.user_id = r.user_id → s = r) →
      r ∈ (dedupe_user_token_blocks db).1.user_token_blocks) := by
  refine ⟨?_, ?_, ?_, ?_, ?_, ?_⟩
  · intro r hr htop
    rw [dedupe_quiz_assignments_rows]
    exact rowNumberDelete_keeps_top _ _
      (fun a b hab => ⟨hab.1.symm, hab.2.symm⟩)
      (recencyBefore_irrefl _ _) (recencyBefore_asymm _ _)
      db.quiz_assignments r hr htop
  · intro r hr htop
    rw [dedupe_revoked_tokens_rows]
    exact rowNumberDelete_keeps_top _ _
      (fun a b hab => hab.symm)
      (recencyBefore_irrefl _ _) (recencyBefore_asymm _ _)
      db.revoked_tokens r hr htop
  · intro r hr htop
    rw [dedupe_user_token_blocks_rows]
    exact rowNumberDelete_keeps_top _ _
      (fun a b hab => hab.symm)
      (recencyBefore_irrefl _ _) (recencyBefore_asymm _ _)
      db.user_token_blocks r hr htop
  · intro r hr hsing
    rw [dedupe_quiz_assignments_rows]
    exact (rowNumberDelete_keeps_top _ _
      (fun a b hab => ⟨hab.1.symm, hab.2.symm⟩)
      (recencyBefore_irrefl _ _) (recencyBefore_asymm _ _)
      db.quiz_assignments r hr
      (fun s hs hsame hne => absurd (hsing s hs hsame) hne)).1
  · intro r hr hsing
    rw [dedupe_revoked_tokens_rows]
    exact (rowNumberDelete_keeps_top _ _
      (fun a b hab => hab.symm)
      (recencyBefore_irrefl _ _) (recencyBefore_asymm _ _)
      db.revoked_tokens r hr
      (fun s hs hsame hne => absurd (hsing s hs hsame) hne)).1
  · intro r hr hsing
    rw [dedupe_user_token_blocks_rows]
    exact (rowNumberDelete_keeps_top _ _
      (fun a b hab => hab.symm)
      (recencyBefore_irrefl _ _) (recencyBefore_asymm _ _)
      db.user_token_blocks r hr
      (fun s hs hsame hne => absurd (hsing s hs hsame) hne)).1

/-- C9 witness: in `rowDupDB`, the latest assignment, the non-null revoked
token and the higher-id token block survive their groups. -/
theorem row_dedupe_keeps_most_recent_witness :
    (⟨2, 5, some 9, some 20⟩ : QuizAssignmentRow) ∈
        (dedupe_quiz_assignments rowDupDB).1.quiz_assignments ∧
      (⟨4, "jti1", some 5⟩ : RevokedTokenRow) ∈
        (dedupe_revoked_tokens rowDupDB).1.revoked_tokens ∧
      (⟨2, some 4, none⟩ : UserTokenBlockRow) ∈
        (dedupe_user_token_blocks rowDupDB).1.user_token_blocks :=
  ⟨((row_dedupe_keeps_most_recent rowDupDB).1 _ (by decide) (by decide)).1,
   ((row_dedupe_keeps_most_recent rowDupDB).2.1 _ (by decide) (by decide)).1,
   ((row_dedupe_keeps_most_recent rowDupDB).2.2.1 _ (by decide) (by decide)).1⟩

/-! ## Merge lemmas -/

theorem foldr_min_le (l : List Nat) (b : Nat) : l.foldr min b ≤ b := by
  induction l with
  | nil => exact Nat.le_refl b
  | cons x xs ih => exact Nat.le_trans (Nat.min_le_right x _) ih

theorem foldr_min_le_mem (l : List Nat) (b : Nat) (x : Nat) (h : x ∈ l) :
    l.foldr min b ≤ x := by
  induction l with
  | nil => cases h
  | cons y ys ih =>
    rcases List.mem_cons.mp h with rfl | h2
    · exact Nat.min_le_left x _
    · exact Nat.le_trans (Nat.min_le_right y _) (ih h2)

theorem foldr_min_mem (l : List Nat) (b : Nat) :
    l.foldr min b = b ∨ l.foldr min b ∈ l := by
  induction l with
  | nil => exact Or.inl rfl
  | cons x xs ih =>
    rcases min_choice x (xs.foldr min b) with h | h
    · exact Or.inr (by rw [List.foldr_cons, h]; exact List.mem_cons_self x xs)
    · rw [List.foldr_cons, h]
      rcases ih with h2 | h2
      · exact Or.inl h2
      · exact Or.inr (List.mem_cons_of_mem x h2)

theorem mem_eligibleUsers (users : List UserRow)
    (key : UserRow → Option String) (nn : Bool) (u : UserRow) :
    u ∈ eligibleUsers users key nn ↔ u ∈ users ∧ eligibleUser nn key u := by
  simp [eligibleUsers, List.mem_filter]

theorem mem_mergeGroup (users : List UserRow) (key : UserRow → Option String)
    (nn : Bool) (u v : UserRow) :
    v ∈ mergeGroup users key nn u ↔
      v ∈ eligibleUsers users key nn ∧ key v = key u := by
  simp [mergeGroup, List.mem_filter]

theorem self_mem_mergeGroup (users : List UserRow)
    (key : UserRow → Option String) (nn : Bool) (u : UserRow)
    (hu : u ∈ eligibleUsers users key nn) : u ∈ mergeGroup users key nn u :=
  (mem_mergeGroup users key nn u u).mpr ⟨hu, rfl⟩

theorem keepId_le_self (users : List UserRow)
    (key : UserRow → Option String) (nn : Bool) (u : UserRow) :
    keepId users key nn u ≤ u.id :=
  foldr_min_le _ _

theorem keepId_le_group (users : List UserRow)
    (key : UserRow → Option String) (nn : Bool) (u v : UserRow)
    (hv : v ∈ mergeGroup users key nn u) : keepId users key nn u ≤ v.id :=
  foldr_min_le_mem _ _ _ (List.mem_map_of_mem _ hv)

theorem keepId_attained (users : List UserRow)
    (key : UserRow → Option String) (nn : Bool) (u : UserRow)
    (hu : u ∈ eligibleUsers users key nn) :
    ∃ w ∈ mergeGroup users key nn u, w.id = keepId users key nn u := by
  rcases foldr_min_mem ((mergeGroup users key nn u).map (fun v => v.id)) u.id
    with h | h
  · exact ⟨u, self_mem_mergeGroup users key nn u hu, h.symm⟩
  · rcases List.mem_map.mp h with ⟨w, hw, hwid⟩
    exact ⟨w, hw, hwid⟩

theorem mergeGroup_eq_of_key_eq (users : List UserRow)
    (key : UserRow → Option String) (nn : Bool) (u v : UserRow)
    (hkey : key u = key v) :
    mergeGroup users key nn u = mergeGroup users key nn v := by
  unfold mergeGroup
  exact List.filter_congr fun w _ => by rw [hkey]

theorem keepId_eq_of_key_eq (users : List UserRow)
    (key : UserRow → Option String) (nn : Bool) (u v : UserRow)
    (hu : u ∈ eligibleUsers users key nn) (hv : v ∈ eligibleUsers users key nn)
    (hkey : key u = key v) :
    keepId users key nn u = keepId users key nn v := by
  have hg := mergeGroup_eq_of_key_eq users key nn u v hkey
  apply Nat.le_antisymm
  · rcases keepId_attained users key nn v hv with ⟨w, hw, hwid⟩
    rw [← hwid]
    exact keepId_le_group users key nn u w (hg ▸ hw)
  · rcases keepId_attained users key nn u hu with ⟨w, hw, hwid⟩
    rw [← hwid]
    exact keepId_le_group users key nn v w (hg ▸ hw)

theorem mem_mergePairs (users : List UserRow)
    (key : UserRow → Option String) (nn : Bool) (o k : Nat) :
    (o, k) ∈ mergePairs users key nn ↔
      ∃ u ∈ eligibleUsers users key nn,
        u.id = o ∧ keepId users key nn u = k ∧ o ≠ k := by
  simp only [mergePairs, List.mem_filterMap]
  constructor
  · rintro ⟨u, hu, hf⟩
    split at hf
    · exact absurd hf (by simp)
    · next hne =>
      simp only [Option.some_inj, Prod.mk.injEq] at hf
      exact ⟨u, hu, hf.1, hf.2, by rw [← hf.1, ← hf.2]; exact hne⟩
  · rintro ⟨u, hu, rfl, rfl, hne⟩
    refine ⟨u, hu, ?_⟩
    rw [if_neg hne]

theorem eligibleUsers_subset (users : List UserRow)
    (key : UserRow → Option String) (nn : Bool) (u : UserRow)
    (hu : u ∈ eligibleUsers users key nn) : u ∈ users :=
  ((mem_eligibleUsers users key nn u).mp hu).1

theorem users_id_inj (users : List UserRow)
    (hid : (users.map UserRow.id).Nodup) (u v : UserRow)
    (hu : u ∈ users) (hv : v ∈ users) (h : u.id = v.id) : u = v :=
  List.inj_on_of_nodup_map hid hu hv h

theorem keep_not_old (users : List UserRow) (key : UserRow → Option String)
    (nn : Bool) (hid : (users.map UserRow.id).Nodup) (o k : Nat)
    (hok : (o, k) ∈ mergePairs users key nn) :
    ¬∃ k2, (k, k2) ∈ mergePairs users key nn := by
  rintro ⟨k2, hk2⟩
  rcases (mem_mergePairs users key nn o k).mp hok with ⟨u, hu, huid, hukeep, hne⟩
  rcases (mem_mergePairs users key nn k k2).mp hk2 with
    ⟨v, hv, hvid, hvkeep, hne2⟩
  rcases keepId_attained users key nn u hu with ⟨w, hw, hwid⟩
  have hwel : w ∈ eligibleUsers users key nn :=
    ((mem_mergeGroup users key nn u w).mp hw).1
  have hwkey : key w = key u := ((mem_mergeGroup users key nn u w).mp hw).2
  have hvw : v = w :=
    users_id_inj users hid v w
      (eligibleUsers_subset users key nn v hv)
      (eligibleUsers_subset users key nn w hwel)
      (by rw [hvid, hwid, hukeep])
  have hkv : keepId users key nn v = k := by
    rw [hvw, keepId_eq_of_key_eq users key nn w u hwel hu hwkey, hukeep]
  exact hne2 (by rw [← hvkeep, hkv])

theorem rewriteRef_none (pairs : List (Nat × Nat)) :
    rewriteRef pairs none = none := rfl

theorem rewriteRef_some (pairs : List (Nat × Nat)) (x : Nat) :
    rewriteRef pairs (some x) =
      match pairs.find? (fun p => decide (p.1 = x)) with
      | some p => some p.2
      | none => some x := rfl

theorem rewriteRef_pair (users : List UserRow) (key : UserRow → Option String)
    (nn : Bool) (hid : (users.map UserRow.id).Nodup) (o k : Nat)
    (hok : (o, k) ∈ mergePairs users key nn) :
    rewriteRef (mergePairs users key nn) (some o) = some k := by
  rw [rewriteRef_some]
  cases hfind : (mergePairs users key nn).find? (fun p => decide (p.1 = o)) with
  | none =>
    rw [List.find?_eq_none] at hfind
    have := hfind _ hok
    simp at this
  | some p =>
    have hp1 : p.1 = o := by
      have := List.find?_some hfind
      simpa using this
    have hpm := List.mem_of_find?_eq_some hfind
    rcases (mem_mergePairs users key nn o k).mp hok with
      ⟨u, hu, huid, hukeep, -⟩
    rcases (mem_mergePairs users key nn p.1 p.2).mp hpm with
      ⟨v, hv, hvid, hvkeep, -⟩
    have huv : u = v :=
      users_id_inj users hid u v
        (eligibleUsers_subset users key nn u hu)
        (eligibleUsers_subset users key nn v hv)
        (by rw [huid, hvid, hp1])
    show some p.2 = some k
    rw [← hvkeep, ← huv, hukeep]

theorem rewriteRef_not_old (users : List UserRow)
    (key : UserRow → Option String) (nn : Bool)
    (hid : (users.map UserRow.id).Nodup) (fk : Option Nat) (x : Nat)
    (h : rewriteRef (mergePairs users key nn) fk = some x) :
    ¬∃ k2, (x, k2) ∈ mergePairs users key nn := by
  cases fk with
  | none =>
    rw [rewriteRef_none] at h
    cases h
  | some y =>
    rw [rewriteRef_some] at h
    cases hfind : (mergePairs users key nn).find?
        (fun p => decide (p.1 = y)) with
    | none =>
      rw [hfind] at h
      have hxy : y = x := by simpa using h
      rw [List.find?_eq_none] at hfind
      rintro ⟨k2, hk2⟩
      have := hfind _ hk2
      simp at this
      exact this hxy.symm
    | some p =>
      rw [hfind] at h
      have hx : p.2 = x := by simpa using h
      have hpm := List.mem_of_find?_eq_some hfind
      rw [← hx]
      exact keep_not_old users key nn hid p.1 p.2 hpm

theorem merge_users_users (db : DB) (key : UserRow → Option String)
    (nn : Bool) :
    (merge_users_by_key db key nn).1.users =
      db.users.filter (fun u =>
        !((mergePairs db.users key nn).any (fun p => decide (p.1 = u.id)))) :=
  rfl

theorem merge_users_quizzes (db : DB) (key : UserRow → Option String)
    (nn : Bool) :
    (merge_users_by_key db key nn).1.quizzes =
      db.quizzes.map (fun q =>
        { q with creator_id :=
            rewriteRef (mergePairs db.users key nn) q.creator_id }) :=
  rfl

theorem merge_users_subjects (db : DB) (key : UserRow → Option String)
    (nn : Bool) :
    (merge_users_by_key db key nn).1.subjects =
      db.subjects.map (fun s =>
        { s with creator_id :=
            rewriteRef (mergePairs db.users key nn) s.creator_id }) :=
  rfl

theorem merge_users_question_bank (db : DB) (key : UserRow → Option String)
    (nn : Bool) :
    (merge_users_by_key db key nn).1.question_bank =
      db.question_bank.map (fun qb =>
        { qb with creator_id :=
            rewriteRef (mergePairs db.users key nn) qb.creator_id }) :=
  rfl

theorem merge_users_quiz_attempts (db : DB) (key : UserRow → Option String)
    (nn : Bool) :
    (merge_users_by_key db key nn).1.quiz_attempts =
      db.quiz_attempts.map (fun qa =>
        { qa with student_id :=
            rewriteRef (mergePairs db.users key nn) qa.student_id }) :=
  rfl

theorem merge_users_quiz_assignments (db : DB)
    (key : UserRow → Option String) (nn : Bool) :
    (merge_users_by_key db key nn).1.quiz_assignments =
      db.quiz_assignments.map (fun qa =>
        { qa with student_id :=
            rewriteRef (mergePairs db.users key nn) qa.student_id }) :=
  rfl

theorem merge_users_user_token_blocks (db : DB)
    (key : UserRow → Option String) (nn : Bool) :
    (merge_users_by_key db key nn).1.user_token_blocks =
      db.user_token_blocks.map (fun ub =>
        { ub with user_id :=
            rewriteRef (mergePairs db.users key nn) ub.user_id }) :=
  rfl

theorem mem_merge_users_iff (db : DB) (key : UserRow → Option String)
    (nn : Bool) (hid : (db.users.map UserRow.id).Nodup) (u : UserRow)
    (hu : u ∈ db.users) :
    u ∈ (merge_users_by_key db key nn).1.users ↔
      (eligibleUser nn key u → u.id = keepId db.users key nn u) := by
  rw [merge_users_users, List.mem_filter]
  constructor
  · rintro ⟨-, hall⟩ hel
    by_contra hne
    have hp : (u.id, keepId db.users key nn u) ∈ mergePairs db.users key nn :=
      (mem_mergePairs db.users key nn _ _).mpr
        ⟨u, (mem_eligibleUsers db.users key nn u).mpr ⟨hu, hel⟩, rfl, rfl, hne⟩
    rw [Bool.not_eq_true', List.any_eq_false] at hall
    have := hall _ hp
    simp at this
  · intro himp
    refine ⟨hu, ?_⟩
    rw [Bool.not_eq_true', List.any_eq_false]
    rintro ⟨o, k⟩ hp
    simp only [decide_eq_true_eq]
    rintro rfl
    rcases (mem_mergePairs db.users key nn _ k).mp hp with
      ⟨v, hv, hvid, hvkeep, hne⟩
    have hvu : v = u :=
      users_id_inj db.users hid v u
        (eligibleUsers_subset db.users key nn v hv) hu hvid
    have hel : eligibleUser nn key u := by
      rw [← hvu]
      exact ((mem_eligibleUsers db.users key nn v).mp hv).2
    apply hne
    rw [← hvkeep, hvu]
    exact himp hel

/-- C1: the entity merge keeps, in every duplicate key group, exactly the
row with the smallest id (rows with larger ids are deleted, ids attained by
a group member bound every group member from below), rewrites every
old-id reference of the six dependent tables to the surviving keep id, and
leaves no dependent reference pointing at any deleted (old) id. -/
theorem merge_users_rewrites_then_deletes (db : DB)
    (key : UserRow → Option String) (nn : Bool)
    (hid : (db.users.map UserRow.id).Nodup) :
    (∀ u ∈ db.users,
      (u ∈ (merge_users_by_key db key nn).1.users ↔
        (eligibleUser nn key u → u.id = keepId db.users key nn u))) ∧
    (∀ u ∈ eligibleUsers db.users key nn,
      ∀ v ∈ eligibleUsers db.users key nn,
      key v = key u → keepId db.users key nn u ≤ v.id) ∧
    (∀ u ∈ eligibleUsers db.users key nn,
      ∃ w ∈ eligibleUsers db.users key nn,
        key w = key u ∧ w.id = keepId db.users key nn u) ∧
    (∀ o k, (o, k) ∈ mergePairs db.users key nn →
      (∀ q ∈ db.quizzes, q.creator_id = some o →
        { q with creator_id := some k } ∈
          (merge_users_by_key db key nn).1.quizzes) ∧
      (∀ s ∈ db.subjects, s.creator_id = some o →
        { s with creator_id := some k } ∈
          (merge_users_by_key db key nn).1.subjects) ∧
      (∀ qb ∈ db.question_bank, qb.creator_id = some o →
        { qb with creator_id := some k } ∈
          (merge_users_by_key db key nn).1.question_bank) ∧
      (∀ qa ∈ db.quiz_attempts, qa.student_id = some o →
        { qa with student_id := some k } ∈
          (merge_users_by_key db key nn).1.quiz_attempts) ∧
      (∀ qa ∈ db.quiz_assignments, qa.student_id = some o →
        { qa with student_id := some k } ∈
          (merge_users_by_key db key nn).1.quiz_assignments) ∧
      (∀ ub ∈ db.user_token_blocks, ub.user_id = some o →
        { ub with user_id := some k } ∈
          (merge_users_by_key db key nn).1.user_token_blocks)) ∧
    (∀ q ∈ (merge_users_by_key db key nn).1.quizzes, ∀ x,
      q.creator_id = some x → ¬∃ k2, (x, k2) ∈ mergePairs db.users key nn) ∧
    (∀ s ∈ (merge_users_by_key db key nn).1.subjects, ∀ x,
      s.creator_id = some x → ¬∃ k2, (x, k2) ∈ mergePairs db.users key nn) ∧
    (∀ qb ∈ (merge_users_by_key db key nn).1.question_bank, ∀ x,
      qb.creator_id = some x → ¬∃ k2, (x, k2) ∈ mergePairs db.users key nn) ∧
    (∀ qa ∈ (merge_users_by_key db key nn).1.quiz_attempts, ∀ x,
      qa.student_id = some x → ¬∃ k2, (x, k2) ∈ mergePairs db.users key nn) ∧
    (∀ qa ∈ (merge_users_by_key db key nn).1.quiz_assignments, ∀ x,
      qa.student_id = some x → ¬∃ k2, (x, k2) ∈ mergePairs db.users key nn) ∧
    (∀ ub ∈ (merge_users_by_key db key nn).1.user_token_blocks, ∀ x,
      ub.user_id = some x → ¬∃ k2, (x, k2) ∈ mergePairs db.users key nn) := by
  refine ⟨fun u hu => mem_merge_users_iff db key nn hid u hu,
    fun u _ v hv hkey =>
      keepId_le_group db.users key nn u v
        ((mem_mergeGroup db.users key nn u v).mpr ⟨hv, hkey⟩),
    fun u hu => ?_, fun o k hok => ?_, ?_, ?_, ?_, ?_, ?_, ?_⟩
  · rcases keepId_attained db.users key nn u hu with ⟨w, hw, hwid⟩
    rcases (mem_mergeGroup db.users key nn u w).mp hw with ⟨hwel, hwkey⟩
    exact ⟨w, hwel, hwkey, hwid⟩
  · have hrw := rewriteRef_pair db.users key nn hid o k hok
    refine ⟨fun q hq hcr => ?_, fun s hs hcr => ?_, fun qb hqb hcr => ?_,
      fun qa hqa hcr => ?_, fun qa hqa hcr => ?_, fun ub hub hcr => ?_⟩
    · rw [merge_users_quizzes]
      have hm := List.mem_map_of_mem (fun q =>
        { q with creator_id :=
            rewriteRef (mergePairs db.users key nn) q.creator_id }) hq
      simp only [hcr, hrw] at hm
      exact hm
    · rw [merge_users_subjects]
      have hm := List.mem_map_of_mem (fun s =>
        { s with creator_id :=
            rewriteRef (mergePairs db.users key nn) s.creator_id }) hs
      simp only [hcr, hrw] at hm
      exact hm
    · rw [merge_users_question_bank]
      have hm := List.mem_map_of_mem (fun qb =>
        { qb with creator_id :=
            rewriteRef (mergePairs db.users key nn) qb.creator_id }) hqb
      simp only [hcr, hrw] at hm
      exact hm
    · rw [merge_users_quiz_attempts]
      have hm := List.mem_map_of_mem (fun qa =>
        { qa with student_id :=
            rewriteRef (mergePairs db.users key nn) qa.student_id }) hqa
      simp only [hcr, hrw] at hm
      exact hm
    · rw [merge_users_quiz_assignments]
      have hm := List.mem_map_of_mem (fun qa =>
        { qa with student_id :=
            rewriteRef (mergePairs db.users key nn) qa.student_id }) hqa
      simp only [hcr, hrw] at hm
      exact hm
    · rw [merge_users_user_token_blocks]
      have hm := List.mem_map_of_mem (fun ub =>
        { ub with user_id :=
            rewriteRef (mergePairs db.users key nn) ub.user_id }) hub
      simp only [hcr, hrw] at hm
      exact hm
  · intro q hq x hx
    rw [merge_users_quizzes] at hq
    rcases List.mem_map.mp hq with ⟨q0, _, rfl⟩
    exact rewriteRef_not_old db.users key nn hid q0.creator_id x hx
  · intro s hs x hx
    rw [merge_users_subjects] at hs
    rcases List.mem_map.mp hs with ⟨s0, _, rfl⟩
    exact rewriteRef_not_old db.users key nn hid s0.creator_id x hx
  · intro qb hqb x hx
    rw [merge_users_question_bank] at hqb
    rcases List.mem_map.mp hqb with ⟨qb0, _, rfl⟩
    exact rewriteRef_not_old db.users key nn hid qb0.creator_id x hx
  · intro qa hqa x hx
    rw [merge_users_quiz_attempts] at hqa
    rcases List.mem_map.mp hqa with ⟨qa0, _, rfl⟩
    exact rewriteRef_not_old db.users key nn hid qa0.student_id x hx
  · intro qa hqa x hx
    rw [merge_users_quiz_assignments] at hqa
    rcases List.mem_map.mp hqa with ⟨qa0, _, rfl⟩
    exact rewriteRef_not_old db.users key nn hid qa0.student_id x hx
  · intro ub hub x hx
    rw [merge_users_user_token_blocks] at hub
    rcases List.mem_map.mp hub with ⟨ub0, _, rfl⟩
    exact rewriteRef_not_old db.users key nn hid ub0.user_id x hx

/-- C1 witness: in `dupUsersDB` the pair `(2, 1)` is merged and the quiz
owned by user 2 is rewritten to user 1. -/
theorem merge_users_rewrites_then_deletes_witness :
    (⟨10, some 1⟩ : QuizRow) ∈
      (merge_users_by_key dupUsersDB (fun u => u.email) false).1.quizzes :=
  ((merge_users_rewrites_then_deletes dupUsersDB (fun u => u.email) false
      (by decide)).2.2.2.1 2 1 (by decide)).1 ⟨10, some 2⟩ (by decide) rfl

/-- C10: the email merge runs without a not-null filter, so all NULL-email
users fall into one duplicate group: they share one keep id, which is the
smallest id among them and belongs to a NULL-email user; every NULL-email
user survives exactly when it carries that id, and each deleted NULL-email
user's id is rewritten to the keep id in the reference map. -/
theorem null_email_users_merged (db : DB)
    (hid : (db.users.map UserRow.id).Nodup) :
    (∀ u ∈ db.users, ∀ v ∈ db.users, u.email = none → v.email = none →
      keepId db.users (fun x => x.email) false u =
        keepId db.users (fun x => x.email) false v) ∧
    (∀ u ∈ db.users, ∀ v ∈ db.users, u.email = none → v.email = none →
      keepId db.users (fun x => x.email) false u ≤ v.id) ∧
    (∀ u ∈ db.users, u.email = none →
      ∃ w ∈ db.users, w.email = none ∧
        w.id = keepId db.users (fun x => x.email) false u) ∧
    (∀ u ∈ db.users, u.email = none →
      (u ∈ (merge_users_by_key db (fun x => x.email) false).1.users ↔
        u.id = keepId db.users (fun x => x.email) false u)) ∧
    (∀ u ∈ db.users, u.email = none →
      u.id ≠ keepId db.users (fun x => x.email) false u →
      rewriteRef (mergePairs db.users (fun x => x.email) false) (some u.id) =
        some (keepId db.users (fun x => x.email) false u)) := by
  have hel : ∀ u ∈ db.users,
      u ∈ eligibleUsers db.users (fun x => x.email) false :=
    fun u hu =>
      (mem_eligibleUsers db.users (fun x => x.email) false u).mpr
        ⟨hu, fun h => nomatch h⟩
  refine ⟨fun u hu v hv hue hve => ?_, fun u hu v hv hue hve => ?_,
    fun u hu hue => ?_, fun u hu hue => ?_, fun u hu hue hne => ?_⟩
  · exact keepId_eq_of_key_eq db.users (fun x => x.email) false u v
      (hel u hu) (hel v hv)
      (by show u.email = v.email; rw [hue, hve])
  · exact keepId_le_group db.users (fun x => x.email) false u v
      ((mem_mergeGroup db.users (fun x => x.email) false u v).mpr
        ⟨hel v hv, by show v.email = u.email; rw [hue, hve]⟩)
  · rcases keepId_attained db.users (fun x => x.email) false u (hel u hu)
      with ⟨w, hw, hwid⟩
    rcases (mem_mergeGroup db.users (fun x => x.email) false u w).mp hw
      with ⟨hwel, hwkey⟩
    exact ⟨w, eligibleUsers_subset db.users (fun x => x.email) false w hwel,
      by rw [← hue]; exact hwkey, hwid⟩
  · rw [mem_merge_users_iff db (fun x => x.email) false hid u hu]
    constructor
    · intro himp
      exact himp fun h => nomatch h
    · intro heq _
      exact heq
  · exact rewriteRef_pair db.users (fun x => x.email) false hid _ _
      ((mem_mergePairs db.users (fun x => x.email) false _ _).mpr
        ⟨u, hel u hu, rfl, rfl, hne⟩)

/-- C10 witness: in `nullEmailDB` (users 3 and 5, both NULL email) the id 5
is rewritten to the surviving id 3. -/
theorem null_email_users_merged_witness :
    rewriteRef (mergePairs nullEmailDB.users (fun x => x.email) false)
        (some 5) = some 3 := by
  have h := (null_email_users_merged nullEmailDB (by decide)).2.2.2.2
    ⟨5, none, none⟩ (by decide) rfl (by decide)
  exact h

end MacQuiz
